import Mathlib

/-!
Verification of the N-up layout and whitespace-trim engine of MochiMaker
(`src/main.py`).  The engine is shallowly embedded: physical lengths (Python
floats holding millimetre/point values) are modelled as exact rationals `ℚ`,
pixel coordinates and byte values as `ℕ`/`ℤ`, PDF documents as lists of pages,
and the PyMuPDF calls that can raise exceptions as `Option`-valued inputs
(`none` = the call raises, and the surrounding `try/except` takes the fallback
path).  Every definition follows the corresponding Python function line by
line; deviations forced by the embedding are noted in comments.
-/

namespace MochiMaker

/-! ## Units and paper sizes (`mm_to_pt`, `paper_size_pt`) -/

/-- Python `PT_PER_INCH = 72.0`. -/
def PT_PER_INCH : ℚ := 72

/-- Python `MM_PER_INCH = 25.4`. -/
def MM_PER_INCH : ℚ := 25.4

/-- Python `mm_to_pt(mm) = mm / MM_PER_INCH * PT_PER_INCH`. -/
def mm_to_pt (mm : ℚ) : ℚ := mm / MM_PER_INCH * PT_PER_INCH

/-- Python `paper_size_pt`: the `sizes_mm` dict lookup; an unknown name falls
back to `"A4"`, and `landscape` swaps width and height. -/
def sizes_mm (name : String) : Option (ℚ × ℚ) :=
  if name = "A4" then some (210, 297)
  else if name = "A3" then some (297, 420)
  else if name = "Letter" then some (215.9, 279.4)
  else none

def paper_size_pt (name : String) (landscape : Bool) : ℚ × ℚ :=
  let wh := match sizes_mm name with
    | some wh => wh
    | none => (210, 297)  -- `if name not in sizes_mm: name = "A4"`
  let w_mm := if landscape then wh.2 else wh.1
  let h_mm := if landscape then wh.1 else wh.2
  (mm_to_pt w_mm, mm_to_pt h_mm)

/-! ## Parameter records (`LayoutParams`, `BuildParams`) -/

structure LayoutParams where
  rows : ℕ
  cols : ℕ
  margin_mm : ℚ
  gap_mm : ℚ
  auto_readable : Bool
  min_slide_w_mm : ℚ
deriving DecidableEq, Repr

structure BuildParams where
  paper : String
  landscape : Bool
  layout : LayoutParams
  trim_whitespace : Bool
  trim_threshold : ℕ
  draw_page_numbers : Bool
  draw_cell_indices : Bool
  cell_index_font_pt : ℚ
  page_number_font_pt : ℚ
deriving DecidableEq, Repr

/-! ## Grid chooser (`CANDIDATE_GRIDS`, `choose_auto_grid`) -/

def CANDIDATE_GRIDS : List (ℕ × ℕ) :=
  [(1,1),(1,2),(2,1),(2,2),
   (2,3),(3,2),
   (3,3),
   (2,4),(4,2),
   (3,4),(4,3),
   (4,4)]

/-- Python `cell_w = (usable_w - (c-1)*gap_pt)/c` (the computed cell width for
a candidate column count `c`). -/
def cellWidth (usable_w gap_pt : ℚ) (c : ℕ) : ℚ :=
  (usable_w - ((c : ℚ) - 1) * gap_pt) / (c : ℚ)

/-- The loop body of `choose_auto_grid`: the current `best` is replaced by the
candidate `rc` when `rc` meets the minimum-width constraint and either has
strictly more slots or has equal slots and a strictly larger cell width.
(`cell_h` is computed by the Python loop but never used.) -/
def chooseStep (usable_w gap_pt min_w_pt : ℚ) (best rc : ℕ × ℕ) : ℕ × ℕ :=
  if min_w_pt ≤ cellWidth usable_w gap_pt rc.2 then
    if best.1 * best.2 < rc.1 * rc.2 then rc
    else if rc.1 * rc.2 = best.1 * best.2 then
      if cellWidth usable_w gap_pt best.2 < cellWidth usable_w gap_pt rc.2 then rc else best
    else best
  else best

/-- Python `choose_auto_grid(paper_pt, layout)`. -/
def choose_auto_grid (paper_pt : ℚ × ℚ) (layout : LayoutParams) : ℕ × ℕ :=
  let margin_pt := mm_to_pt layout.margin_mm
  let gap_pt := mm_to_pt layout.gap_mm
  let usable_w := paper_pt.1 - 2 * margin_pt
  CANDIDATE_GRIDS.foldl (chooseStep usable_w gap_pt (mm_to_pt layout.min_slide_w_mm)) (1, 1)

/-- A candidate qualifies when its computed cell width reaches the minimum
slide width (the constraint checked by `choose_auto_grid`). -/
def Qualifies (usable_w gap_pt min_w_pt : ℚ) (rc : ℕ × ℕ) : Prop :=
  min_w_pt ≤ cellWidth usable_w gap_pt rc.2

instance (usable_w gap_pt min_w_pt : ℚ) (rc : ℕ × ℕ) :
    Decidable (Qualifies usable_w gap_pt min_w_pt rc) := by
  unfold Qualifies; infer_instance

/-- Invariant maintained by the `choose_auto_grid` loop over the candidates
seen so far: either no candidate so far qualifies and `best` is still the
initial `(1,1)`, or `best` is a qualifying candidate with the maximal slot
count, with maximal cell width among qualifying candidates of equal slot
count. -/
def ChooserInv (uw g mw : ℚ) (l : List (ℕ × ℕ)) (b : ℕ × ℕ) : Prop :=
  (b = (1, 1) ∧ ∀ q ∈ l, ¬ Qualifies uw g mw q) ∨
  (b ∈ l ∧ Qualifies uw g mw b ∧
    ∀ q ∈ l, Qualifies uw g mw q →
      q.1 * q.2 ≤ b.1 * b.2 ∧
      (q.1 * q.2 = b.1 * b.2 → cellWidth uw g q.2 ≤ cellWidth uw g b.2))

lemma chooseStep_inv (uw g mw : ℚ) (processed : List (ℕ × ℕ)) (b q : ℕ × ℕ)
    (hq1 : 1 ≤ q.1 * q.2) (hb : ChooserInv uw g mw processed b) :
    ChooserInv uw g mw (processed ++ [q]) (chooseStep uw g mw b q) := by
  unfold chooseStep
  by_cases h1 : Qualifies uw g mw q
  · rw [if_pos (show mw ≤ cellWidth uw g q.2 from h1)]
    rcases hb with ⟨rfl, hnone⟩ | ⟨hmem, hbq, hmax⟩
    · by_cases h2 : 1 * 1 < q.1 * q.2
      · rw [if_pos h2]
        refine Or.inr ⟨List.mem_append_right _ (List.mem_singleton_self q), h1, ?_⟩
        intro p hp hpq
        rcases List.mem_append.mp hp with hp | hp
        · exact absurd hpq (hnone p hp)
        · rw [List.mem_singleton.mp hp]
          exact ⟨le_rfl, fun _ => le_rfl⟩
      · -- `q` qualifies with slot count ≤ 1, hence q = (1,1)
        have hq11 : q = (1, 1) := by
          have h11 : q.1 * q.2 = 1 := le_antisymm (by omega) hq1
          have ha : q.1 = 1 := Nat.dvd_one.mp ⟨q.2, h11.symm⟩
          have hb2 : q.2 = 1 := Nat.dvd_one.mp ⟨q.1, by rw [← h11]; ring⟩
          exact Prod.ext ha hb2
        rw [if_neg h2]
        subst hq11
        simp only [if_pos rfl, lt_self_iff_false, if_neg (lt_irrefl _)]
        refine Or.inr ⟨List.mem_append_right _ (List.mem_singleton_self _), h1, ?_⟩
        intro p hp hpq
        rcases List.mem_append.mp hp with hp | hp
        · exact absurd hpq (hnone p hp)
        · rw [List.mem_singleton.mp hp]
          exact ⟨le_rfl, fun _ => le_rfl⟩
    · by_cases h2 : b.1 * b.2 < q.1 * q.2
      · rw [if_pos h2]
        refine Or.inr ⟨List.mem_append_right _ (List.mem_singleton_self q), h1, ?_⟩
        intro p hp hpq
        rcases List.mem_append.mp hp with hp | hp
        · refine ⟨le_of_lt (lt_of_le_of_lt ((hmax p hp hpq).1) h2), fun hpe => ?_⟩
          exact absurd hpe (Nat.ne_of_lt (lt_of_le_of_lt ((hmax p hp hpq).1) h2))
        · rw [List.mem_singleton.mp hp]
          exact ⟨le_rfl, fun _ => le_rfl⟩
      · rw [if_neg h2]
        by_cases h3 : q.1 * q.2 = b.1 * b.2
        · rw [if_pos h3]
          by_cases h4 : cellWidth uw g b.2 < cellWidth uw g q.2
          · rw [if_pos h4]
            refine Or.inr ⟨List.mem_append_right _ (List.mem_singleton_self q), h1, ?_⟩
            intro p hp hpq
            rcases List.mem_append.mp hp with hp | hp
            · refine ⟨(hmax p hp hpq).1.trans (le_of_eq h3.symm), fun hpe => ?_⟩
              exact ((hmax p hp hpq).2 (hpe.trans h3)).trans (le_of_lt h4)
            · rw [List.mem_singleton.mp hp]
              exact ⟨le_rfl, fun _ => le_rfl⟩
          · rw [if_neg h4]
            refine Or.inr ⟨List.mem_append_left _ hmem, hbq, ?_⟩
            intro p hp hpq
            rcases List.mem_append.mp hp with hp | hp
            · exact hmax p hp hpq
            · rw [List.mem_singleton.mp hp]
              exact ⟨le_of_eq h3, fun _ => le_of_not_lt h4⟩
        · rw [if_neg h3]
          refine Or.inr ⟨List.mem_append_left _ hmem, hbq, ?_⟩
          intro p hp hpq
          rcases List.mem_append.mp hp with hp | hp
          · exact hmax p hp hpq
          · rw [List.mem_singleton.mp hp]
            exact ⟨le_of_not_lt h2, fun hpe => absurd hpe h3⟩
  · rw [if_neg (show ¬ mw ≤ cellWidth uw g q.2 from h1)]
    rcases hb with ⟨rfl, hnone⟩ | ⟨hmem, hbq, hmax⟩
    · refine Or.inl ⟨rfl, ?_⟩
      intro p hp
      rcases List.mem_append.mp hp with hp | hp
      · exact hnone p hp
      · rw [List.mem_singleton.mp hp]; exact h1
    · refine Or.inr ⟨List.mem_append_left _ hmem, hbq, ?_⟩
      intro p hp hpq
      rcases List.mem_append.mp hp with hp | hp
      · exact hmax p hp hpq
      · exact absurd hpq (by rw [List.mem_singleton.mp hp]; exact h1)

lemma foldl_chooseStep_inv (uw g mw : ℚ) :
    ∀ (l processed : List (ℕ × ℕ)) (b : ℕ × ℕ),
      (∀ q ∈ l, 1 ≤ q.1 * q.2) → ChooserInv uw g mw processed b →
      ChooserInv uw g mw (processed ++ l) (l.foldl (chooseStep uw g mw) b)
  | [], processed, b, _, hb => by simpa using hb
  | q :: t, processed, b, hl, hb => by
    have hstep := chooseStep_inv uw g mw processed b q (hl q (List.mem_cons_self q t)) hb
    have ih := foldl_chooseStep_inv uw g mw t (processed ++ [q]) (chooseStep uw g mw b q)
      (fun p hp => hl p (List.mem_cons_of_mem q hp)) hstep
    simpa [List.append_assoc] using ih

lemma choose_auto_grid_inv (paper_pt : ℚ × ℚ) (layout : LayoutParams) :
    ChooserInv (paper_pt.1 - 2 * mm_to_pt layout.margin_mm) (mm_to_pt layout.gap_mm)
      (mm_to_pt layout.min_slide_w_mm) CANDIDATE_GRIDS (choose_auto_grid paper_pt layout) := by
  have h := foldl_chooseStep_inv (paper_pt.1 - 2 * mm_to_pt layout.margin_mm)
    (mm_to_pt layout.gap_mm) (mm_to_pt layout.min_slide_w_mm) CANDIDATE_GRIDS [] (1, 1)
    (by decide) (Or.inl ⟨rfl, by simp⟩)
  simpa [choose_auto_grid] using h

lemma mm_to_pt_mono {a b : ℚ} (h : a ≤ b) : mm_to_pt a ≤ mm_to_pt b := by
  unfold mm_to_pt MM_PER_INCH PT_PER_INCH
  rw [div_mul_eq_mul_div, div_mul_eq_mul_div]
  apply div_le_div_of_nonneg_right ?_ (by norm_num)
  linarith

lemma candidate_slots_pos : ∀ q ∈ CANDIDATE_GRIDS, 1 ≤ q.1 * q.2 := by decide

/-- C1: for every paper size, margin, gap and minimum slide width,
`choose_auto_grid` returns, from the fixed 12-element candidate set, the pair
maximizing `rows*cols` among candidates whose cell width
`(usable width - (cols-1)*gap)/cols` reaches the minimum cell width, ties on
slot count broken towards strictly larger cell width, and returns `(1,1)` when
no candidate qualifies; whenever some candidate qualifies the chosen grid's
cell width is itself at least the minimum cell width. -/
theorem C1_choose_auto_grid_correct (paper_pt : ℚ × ℚ) (layout : LayoutParams)
    (uw gap mw : ℚ)
    (huw : uw = paper_pt.1 - 2 * mm_to_pt layout.margin_mm)
    (hgap : gap = mm_to_pt layout.gap_mm)
    (hmw : mw = mm_to_pt layout.min_slide_w_mm) :
    ((∀ q ∈ CANDIDATE_GRIDS, ¬ Qualifies uw gap mw q) →
        choose_auto_grid paper_pt layout = (1, 1)) ∧
    (∀ q₀ ∈ CANDIDATE_GRIDS, Qualifies uw gap mw q₀ →
        choose_auto_grid paper_pt layout ∈ CANDIDATE_GRIDS ∧
        Qualifies uw gap mw (choose_auto_grid paper_pt layout) ∧
        ∀ q ∈ CANDIDATE_GRIDS, Qualifies uw gap mw q →
          q.1 * q.2 ≤ (choose_auto_grid paper_pt layout).1 * (choose_auto_grid paper_pt layout).2 ∧
          (q.1 * q.2 = (choose_auto_grid paper_pt layout).1 * (choose_auto_grid paper_pt layout).2 →
            cellWidth uw gap q.2 ≤ cellWidth uw gap (choose_auto_grid paper_pt layout).2)) := by
  subst huw hgap hmw
  have h := choose_auto_grid_inv paper_pt layout
  constructor
  · intro hall
    rcases h with ⟨he, _⟩ | ⟨hmem, hq, _⟩
    · exact he
    · exact absurd hq (hall _ hmem)
  · intro q₀ hq₀ hq₀q
    rcases h with ⟨_, hnone⟩ | ⟨hmem, hq, hmax⟩
    · exact absurd hq₀q (hnone q₀ hq₀)
    · exact ⟨hmem, hq, hmax⟩

/-- Witness for C1 at the GUI defaults (A4 portrait, 10 mm margin, 4 mm gap,
90 mm minimum slide width), where `(2,2)` qualifies. -/
theorem C1_choose_auto_grid_correct_witness :
    ((2, 2) ∈ CANDIDATE_GRIDS ∧
      Qualifies ((paper_size_pt "A4" false).1 - 2 * mm_to_pt 10) (mm_to_pt 4) (mm_to_pt 90) (2, 2)) ∧
    Qualifies ((paper_size_pt "A4" false).1 - 2 * mm_to_pt 10) (mm_to_pt 4) (mm_to_pt 90)
      (choose_auto_grid (paper_size_pt "A4" false) ⟨2, 2, 10, 4, true, 90⟩) := by
  have hmem : ((2 : ℕ), (2 : ℕ)) ∈ CANDIDATE_GRIDS := by decide
  have hqual : Qualifies ((paper_size_pt "A4" false).1 - 2 * mm_to_pt 10) (mm_to_pt 4)
      (mm_to_pt 90) (2, 2) := by
    unfold Qualifies cellWidth paper_size_pt sizes_mm mm_to_pt MM_PER_INCH PT_PER_INCH
    norm_num
  exact ⟨⟨hmem, hqual⟩,
    ((C1_choose_auto_grid_correct (paper_size_pt "A4" false) ⟨2, 2, 10, 4, true, 90⟩
      _ _ _ rfl rfl rfl).2 (2, 2) hmem hqual).2.1⟩

/-- C2: for fixed paper size, margin and gap, the slot count `rows*cols` of the
grid chosen by `choose_auto_grid` is non-increasing in the minimum slide
width. -/
theorem C2_slot_count_antitone (paper_pt : ℚ × ℚ) (rows cols : ℕ) (margin gap : ℚ)
    (auto : Bool) (w1 w2 : ℚ) (h : w1 ≤ w2) :
    (choose_auto_grid paper_pt ⟨rows, cols, margin, gap, auto, w2⟩).1 *
      (choose_auto_grid paper_pt ⟨rows, cols, margin, gap, auto, w2⟩).2 ≤
    (choose_auto_grid paper_pt ⟨rows, cols, margin, gap, auto, w1⟩).1 *
      (choose_auto_grid paper_pt ⟨rows, cols, margin, gap, auto, w1⟩).2 := by
  have h1 := choose_auto_grid_inv paper_pt ⟨rows, cols, margin, gap, auto, w1⟩
  have h2 := choose_auto_grid_inv paper_pt ⟨rows, cols, margin, gap, auto, w2⟩
  dsimp only at h1 h2
  have hmono : mm_to_pt w1 ≤ mm_to_pt w2 := mm_to_pt_mono h
  rcases h2 with ⟨he2, _⟩ | ⟨hmem2, hq2, _⟩
  · rw [he2]
    rcases h1 with ⟨he1, _⟩ | ⟨hmem1, _, _⟩
    · rw [he1]
    · simpa using candidate_slots_pos _ hmem1
  · have hq2' : Qualifies (paper_pt.1 - 2 * mm_to_pt margin) (mm_to_pt gap) (mm_to_pt w1)
        (choose_auto_grid paper_pt ⟨rows, cols, margin, gap, auto, w2⟩) :=
      le_trans hmono hq2
    rcases h1 with ⟨_, hnone1⟩ | ⟨_, _, hmax1⟩
    · exact absurd hq2' (hnone1 _ hmem2)
    · exact (hmax1 _ hmem2 hq2').1

/-- Witness for C2 at A4 defaults with minimum widths 50 mm and 90 mm. -/
theorem C2_slot_count_antitone_witness :
    (50 : ℚ) ≤ 90 ∧
    (choose_auto_grid (paper_size_pt "A4" false) ⟨2, 2, 10, 4, true, 90⟩).1 *
      (choose_auto_grid (paper_size_pt "A4" false) ⟨2, 2, 10, 4, true, 90⟩).2 ≤
    (choose_auto_grid (paper_size_pt "A4" false) ⟨2, 2, 10, 4, true, 50⟩).1 *
      (choose_auto_grid (paper_size_pt "A4" false) ⟨2, 2, 10, 4, true, 50⟩).2 :=
  ⟨by norm_num,
    C2_slot_count_antitone (paper_size_pt "A4" false) 2 2 10 4 true 50 90 (by norm_num)⟩

/-! ## Rectangles and pixmaps

`fitz.Rect` is four rational coordinates; `r1 + r2` is componentwise addition
and `r1 & r2` is the componentwise max/min intersection (PyMuPDF's
`Rect.intersect`).  `fitz.Pixmap` is a width x height x n byte buffer
(`samples`); `estimate_content_clip` always requests `alpha=False`, so the
alpha-dropping branch of `nonwhite_bbox_pixmap` is never taken and the model
omits it.  Out-of-range buffer reads are modelled as 0 (a well-formed pixmap
has `samples.length = width * height * n`, so they do not occur). -/

structure Rect where
  x0 : ℚ
  y0 : ℚ
  x1 : ℚ
  y1 : ℚ
deriving DecidableEq, Repr

/-- PyMuPDF `Rect.__add__`: componentwise addition. -/
def Rect.addR (a b : Rect) : Rect := ⟨a.x0 + b.x0, a.y0 + b.y0, a.x1 + b.x1, a.y1 + b.y1⟩

/-- PyMuPDF `Rect.__and__` (`intersect`): componentwise max/min. -/
def Rect.interR (a b : Rect) : Rect :=
  ⟨max a.x0 b.x0, max a.y0 b.y0, min a.x1 b.x1, min a.y1 b.y1⟩

/-- `Matrix(k, k).transform_rect` for a diagonal matrix: scale all coordinates. -/
def Rect.scaleBy (k : ℚ) (r : Rect) : Rect := ⟨k * r.x0, k * r.y0, k * r.x1, k * r.y1⟩

/-- Containment of `inner` in `outer`, as coordinate bounds. -/
def Rect.containsR (outer inner : Rect) : Prop :=
  outer.x0 ≤ inner.x0 ∧ outer.y0 ≤ inner.y0 ∧ inner.x1 ≤ outer.x1 ∧ inner.y1 ≤ outer.y1

structure Pixmap where
  width : ℕ
  height : ℕ
  n : ℕ
  samples : List ℕ
deriving DecidableEq, Repr

/-- The value `min(r, g, b)` read by `nonwhite_bbox_pixmap` at pixel `(x, y)`:
`row_start = y*w*ncomp`, channels at `row_start + x*ncomp + {0,1,2}`. -/
def pixel_min (pix : Pixmap) (x y : ℕ) : ℕ :=
  let base := y * pix.width * pix.n + x * pix.n
  let r := pix.samples.getD base 0
  let g := pix.samples.getD (base + 1) 0
  let b := pix.samples.getD (base + 2) 0
  min r (min g b)

/-- The running bbox accumulator `xmin, ymin, xmax, ymax = w, h, -1, -1`. -/
structure ScanAcc where
  xmin : ℕ
  ymin : ℕ
  xmax : ℤ
  ymax : ℤ
deriving DecidableEq, Repr

/-- The per-pixel body of the scan loop in `nonwhite_bbox_pixmap`. -/
def scan_pixel (pix : Pixmap) (threshold : ℕ) (y : ℕ) (acc : ScanAcc) (x : ℕ) : ScanAcc :=
  if pixel_min pix x y < threshold then
    { xmin := if x < acc.xmin then x else acc.xmin
      ymin := if y < acc.ymin then y else acc.ymin
      xmax := if acc.xmax < (x : ℤ) then (x : ℤ) else acc.xmax
      ymax := if acc.ymax < (y : ℤ) then (y : ℤ) else acc.ymax }
  else acc

/-- Python `nonwhite_bbox_pixmap(pix, threshold)`: scan all pixels, return
`None` when `xmax < 0` (no pixel below threshold), else
`Rect(xmin, ymin, xmax+1, ymax+1)`. -/
def nonwhite_bbox_pixmap (pix : Pixmap) (threshold : ℕ) : Option Rect :=
  let acc := (List.range pix.height).foldl
    (fun a y => (List.range pix.width).foldl (scan_pixel pix threshold y) a)
    ⟨pix.width, pix.height, -1, -1⟩
  if acc.xmax < 0 then none
  else some ⟨(acc.xmin : ℚ), (acc.ymin : ℚ), (acc.xmax : ℚ) + 1, (acc.ymax : ℚ) + 1⟩

/-- A source page: its native rectangle (`page.rect`) and the result of
`page.get_pixmap(matrix=identity, alpha=False)` — `none` when rasterization
raises, which the Python `try/except` maps to the fail-open fallback. -/
structure SourcePage where
  rect : Rect
  pix : Option Pixmap
deriving DecidableEq, Repr

instance : Inhabited SourcePage := ⟨⟨⟨0, 0, 0, 0⟩, none⟩⟩

/-- Python `estimate_content_clip(src_page, threshold)`: rasterize at
`target_dpi = 72` (zoom 1), take the non-white bbox, map back through the
inverse zoom, expand by `Rect(-2,-2,2,2)` and clip to the page rectangle;
on a blank page or any failure return the full page rectangle. -/
def estimate_content_clip (sp : SourcePage) (threshold : ℕ) : Rect :=
  match sp.pix with
  | none => sp.rect
  | some pix =>
    match nonwhite_bbox_pixmap pix threshold with
    | none => sp.rect
    | some bbox_px =>
      let zoom : ℚ := 72 / 72
      let rect_pt := Rect.scaleBy (1 / zoom) bbox_px
      Rect.interR (Rect.addR rect_pt ⟨-2, -2, 2, 2⟩) sp.rect

/-- A pixmap is blank for `threshold` when no pixel's minimum channel is below
the threshold. -/
def BlankPixmap (pix : Pixmap) (threshold : ℕ) : Prop :=
  ∀ y < pix.height, ∀ x < pix.width, threshold ≤ pixel_min pix x y

lemma foldl_id {α β : Type} (l : List β) (a : α) : l.foldl (fun a _ => a) a = a := by
  induction l generalizing a with
  | nil => rfl
  | cons x t ih => exact ih a

lemma nonwhite_bbox_pixmap_blank (pix : Pixmap) (threshold : ℕ)
    (hb : BlankPixmap pix threshold) : nonwhite_bbox_pixmap pix threshold = none := by
  unfold nonwhite_bbox_pixmap
  have hscan : (List.range pix.height).foldl
      (fun a y => (List.range pix.width).foldl (scan_pixel pix threshold y) a)
      ⟨pix.width, pix.height, -1, -1⟩ = (⟨pix.width, pix.height, -1, -1⟩ : ScanAcc) := by
    rw [List.foldl_ext (g := fun a _ => a)]
    · exact foldl_id _ _
    · intro a y hy
      rw [List.foldl_ext (g := fun a _ => a)]
      · exact foldl_id _ _
      · intro a' x hx
        unfold scan_pixel
        rw [if_neg]
        exact not_lt.mpr (hb y (List.mem_range.mp hy) x (List.mem_range.mp hx))
  rw [hscan]
  norm_num

/-- C6: the trim estimator fails open — on a page whose rasterization fails,
or on a fully blank page (no pixel below threshold), `estimate_content_clip`
returns the page's full native rectangle exactly.  (The embedding of the
build is a total function, so no such failure can abort a build.) -/
theorem C6_estimate_content_clip_fail_open (sp : SourcePage) (threshold : ℕ) :
    (sp.pix = none → estimate_content_clip sp threshold = sp.rect) ∧
    (∀ pix, sp.pix = some pix → BlankPixmap pix threshold →
      estimate_content_clip sp threshold = sp.rect) := by
  constructor
  · intro h
    unfold estimate_content_clip
    rw [h]
  · intro pix h hb
    unfold estimate_content_clip
    rw [h]
    dsimp only
    rw [nonwhite_bbox_pixmap_blank pix threshold hb]

/-- Witness for C6: a page whose rasterization fails yields its full
rectangle. -/
theorem C6_estimate_content_clip_fail_open_witness :
    (SourcePage.mk ⟨0, 0, 595, 842⟩ none).pix = none ∧
    estimate_content_clip ⟨⟨0, 0, 595, 842⟩, none⟩ 245 = ⟨0, 0, 595, 842⟩ :=
  ⟨rfl, (C6_estimate_content_clip_fail_open ⟨⟨0, 0, 595, 842⟩, none⟩ 245).1 rfl⟩

/-- C7: for every source page and every threshold, the rectangle returned by
`estimate_content_clip` is contained in the page's native rectangle — the
expanded bounding box is clipped back to the page rectangle before being
returned, and the fallback is the page rectangle itself. -/
theorem C7_estimate_content_clip_contained (sp : SourcePage) (threshold : ℕ) :
    sp.rect.containsR (estimate_content_clip sp threshold) := by
  unfold Rect.containsR estimate_content_clip
  cases sp.pix with
  | none => exact ⟨le_rfl, le_rfl, le_rfl, le_rfl⟩
  | some pix =>
    dsimp only
    cases nonwhite_bbox_pixmap pix threshold with
    | none => exact ⟨le_rfl, le_rfl, le_rfl, le_rfl⟩
    | some bbox_px =>
      dsimp only [Rect.interR, Rect.addR, Rect.scaleBy]
      exact ⟨le_max_right _ _, le_max_right _ _, min_le_right _ _, min_le_right _ _⟩

/-! ## Page compositor (`build_nup_from_multiple`)

A source document is its list of pages; an entry `none` in the source list is
a path for which `fitz.open` raises (the `except: continue` branch).  The
output document is the list of its pages; an output page records, in order,
the `show_pdf_page` placements made into it, plus the footer text inserted by
`draw_page_number_footer` (if any).  The loop state mirrors the Python loop
variables: `out` is split into the completed pages `done` and the placements
`cur` of the currently open page (a partial page exists in `out` exactly when
`slot_used > 0`, since `out.new_page` runs when a placement finds
`slot_used == 0` and `slot_used` is reset when a page completes).  The
pre-count of `total_input_pages` (lines 193-199) is dead code — the variable
is never read — and is omitted. -/

abbrev SourceDoc := List SourcePage

/-- One `show_pdf_page` call: the slot index used, the destination cell
rectangle, the document and page number shown, the clip rectangle, and the
cell-index text stamped next to it (when `draw_cell_indices`). -/
structure Placement where
  slot : ℕ
  dest : Rect
  src : SourceDoc
  pno : ℕ
  clip : Rect
  cell_index_text : Option String
deriving DecidableEq, Repr

structure OutPage where
  placements : List Placement
  footer : Option String
deriving DecidableEq, Repr

instance : Inhabited OutPage := ⟨⟨[], none⟩⟩

/-- The mutable state of the placement loop. -/
structure BState where
  done : List OutPage
  cur : List Placement
  slot_used : ℕ
  global_page_index : ℕ
  stopped : Bool
deriving DecidableEq, Repr

def init_state : BState := ⟨[], [], 0, 0, false⟩

/-- The footer string `f"{page_idx1} / {total_pages}"`. -/
def footer_text (page_idx1 total_pages : ℕ) : String :=
  toString page_idx1 ++ " / " ++ toString total_pages

/-- Python `draw_page_number_footer(page, page_idx1, total_pages)`: a no-op
unless `params.draw_page_numbers`. -/
def draw_page_number_footer (params : BuildParams) (total_pages page_idx1 : ℕ)
    (page : OutPage) : OutPage :=
  if params.draw_page_numbers then
    { page with footer := some (footer_text page_idx1 total_pages) }
  else page

/-- The footer pass `for i in range(total_out): draw_page_number_footer(out[i], i+1, total_out)`,
entered with `i = 0`. -/
def stamp_footers (params : BuildParams) (total_out : ℕ) : ℕ → List OutPage → List OutPage
  | _, [] => []
  | i, page :: rest =>
    draw_page_number_footer params total_out (i + 1) page ::
      stamp_footers params total_out (i + 1) rest

/-- The per-build constants computed before the placement loop. -/
structure LoopCtx where
  params : BuildParams
  rows : ℕ
  cols : ℕ
  margin : ℚ
  gap : ℚ
  cell_w : ℚ
  cell_h : ℚ
  stop_after_pages : Option ℕ
deriving DecidableEq, Repr

def LoopCtx.total_slots (ctx : LoopCtx) : ℕ := ctx.rows * ctx.cols

/-- The placement built by one loop iteration from `slot_used` and the current
`global_page_index` (the Python code increments the index and then uses it for
the cell label, hence `gpi0 + 1`). -/
def new_placement (ctx : LoopCtx) (slot_used gpi0 : ℕ) (src : SourceDoc) (pno : ℕ) : Placement :=
  let r := slot_used / ctx.cols
  let c := slot_used % ctx.cols
  let x0 := ctx.margin + (c : ℚ) * (ctx.cell_w + ctx.gap)
  let y0 := ctx.margin + (r : ℚ) * (ctx.cell_h + ctx.gap)
  let sp := src.getD pno default
  { slot := slot_used
    dest := ⟨x0, y0, x0 + ctx.cell_w, y0 + ctx.cell_h⟩
    src := src
    pno := pno
    clip := if ctx.params.trim_whitespace then
        estimate_content_clip sp ctx.params.trim_threshold
      else sp.rect
    cell_index_text := if ctx.params.draw_cell_indices then some (toString (gpi0 + 1)) else none }

/-- The body of `for pno in range(len(src))`: place one source page, advance
the slot cursor, and on page completion check the `stop_after_pages` bound —
when it fires, the footers are stamped with the then-known page count and the
loop is abandoned (`stopped` makes every later iteration a no-op, modelling
the early `return`). -/
def place_one (ctx : LoopCtx) (s : BState) (src : SourceDoc) (pno : ℕ) : BState :=
  if s.stopped then s
  else
    let pl := new_placement ctx s.slot_used s.global_page_index src pno
    let cur := s.cur ++ [pl]
    let gpi := s.global_page_index + 1
    let slot := s.slot_used + 1
    if ctx.total_slots ≤ slot then
      let done := s.done ++ [⟨cur, none⟩]
      match ctx.stop_after_pages with
      | some k =>
        if k ≤ done.length then
          { done := stamp_footers ctx.params done.length 0 done, cur := [], slot_used := 0,
            global_page_index := gpi, stopped := true }
        else
          { done := done, cur := [], slot_used := 0, global_page_index := gpi, stopped := false }
      | none =>
        { done := done, cur := [], slot_used := 0, global_page_index := gpi, stopped := false }
    else
      { s with cur := cur, slot_used := slot, global_page_index := gpi }

/-- The nested source loops: `for path in src_files: ... for pno in range(len(src))`,
with unopenable paths skipped. -/
def docs_loop (ctx : LoopCtx) (s : BState) (src_files : List (Option SourceDoc)) : BState :=
  src_files.foldl (fun s d =>
    match d with
    | none => s
    | some src => (List.range src.length).foldl (fun s pno => place_one ctx s src pno) s) s

/-- Python lines 155-158: the grid actually used — `choose_auto_grid` when
`auto_readable`, else the fixed `rows`/`cols`. -/
def effective_grid (params : BuildParams) : ℕ × ℕ :=
  if params.layout.auto_readable then
    choose_auto_grid (paper_size_pt params.paper params.landscape) params.layout
  else (params.layout.rows, params.layout.cols)

/-- Python lines 151-166: page size, grid, margins and cell sizes. -/
def mk_ctx (params : BuildParams) (stop_after_pages : Option ℕ) : LoopCtx :=
  let paper := paper_size_pt params.paper params.landscape
  let rc := effective_grid params
  let margin := mm_to_pt params.layout.margin_mm
  let gap := mm_to_pt params.layout.gap_mm
  let usable_w := paper.1 - 2 * margin
  let usable_h := paper.2 - 2 * margin
  { params := params
    rows := rc.1
    cols := rc.2
    margin := margin
    gap := gap
    cell_w := (usable_w - ((rc.2 : ℚ) - 1) * gap) / (rc.2 : ℚ)
    cell_h := (usable_h - ((rc.1 : ℚ) - 1) * gap) / (rc.1 : ℚ)
    stop_after_pages := stop_after_pages }

/-- The final document: on early stop the stamped pages from the `return`
inside the loop; otherwise all pages (the open partial page exists iff
`slot_used > 0`), footered by the second pass with the final total. -/
def assemble (ctx : LoopCtx) (s : BState) : List OutPage :=
  if s.stopped then s.done
  else
    let pages := s.done ++ (if 0 < s.slot_used then [⟨s.cur, none⟩] else [])
    stamp_footers ctx.params pages.length 0 pages

/-- Python `build_nup_from_multiple(src_files, params, stop_after_pages)`. -/
def build_nup_from_multiple (src_files : List (Option SourceDoc)) (params : BuildParams)
    (stop_after_pages : Option ℕ) : List OutPage :=
  let ctx := mk_ctx params stop_after_pages
  assemble ctx (docs_loop ctx init_state src_files)

/-! ## The flattened placement order -/

/-- The sequence of `(document, page number)` pairs the nested loops visit:
openable documents in list order, each document's pages in native order. -/
def flatten_srcs (src_files : List (Option SourceDoc)) : List (SourceDoc × ℕ) :=
  src_files.flatMap (fun d =>
    match d with
    | none => []
    | some src => (List.range src.length).map (fun pno => (src, pno)))

def flat_loop (ctx : LoopCtx) (s : BState) (l : List (SourceDoc × ℕ)) : BState :=
  l.foldl (fun s r => place_one ctx s r.1 r.2) s

lemma docs_loop_eq_flat (ctx : LoopCtx) :
    ∀ (src_files : List (Option SourceDoc)) (s : BState),
      docs_loop ctx s src_files = flat_loop ctx s (flatten_srcs src_files)
  | [], _ => rfl
  | none :: t, s => by
    rw [show docs_loop ctx s (none :: t) = docs_loop ctx s t from rfl,
      docs_loop_eq_flat ctx t s]
    rfl
  | some src :: t, s => by
    have hstep : docs_loop ctx s (some src :: t) =
        docs_loop ctx ((List.range src.length).foldl (fun s pno => place_one ctx s src pno) s) t :=
      rfl
    rw [hstep, docs_loop_eq_flat ctx t _]
    unfold flatten_srcs flat_loop
    rw [List.flatMap_cons, List.foldl_append, List.foldl_map]

/-! ## Loop analysis -/

instance : Inhabited Placement := ⟨⟨0, ⟨0, 0, 0, 0⟩, [], 0, ⟨0, 0, 0, 0⟩, none⟩⟩

/-- All placements made so far, in placement order: those on completed pages
followed by those on the open page. -/
def BState.all_placements (s : BState) : List Placement :=
  (s.done.flatMap fun pg => pg.placements) ++ s.cur

/-- The placement the loop makes for the `i`-th source page overall
(0-based): slot cursor `i % total_slots`, cell-index label `i + 1`. -/
def mk_placement (ctx : LoopCtx) (i : ℕ) (r : SourceDoc × ℕ) : Placement :=
  new_placement ctx (i % ctx.total_slots) i r.1 r.2

def placements_from (ctx : LoopCtx) : ℕ → List (SourceDoc × ℕ) → List Placement
  | _, [] => []
  | i, r :: rest => mk_placement ctx i r :: placements_from ctx (i + 1) rest

lemma succ_mod_div_of_lt {n m : ℕ} (h : n % m + 1 < m) :
    (n + 1) % m = n % m + 1 ∧ (n + 1) / m = n / m := by
  have hm : 0 < m := Nat.lt_of_le_of_lt (Nat.zero_le _) h
  have key := Nat.div_add_mod n m
  have hn1 : n + 1 = m * (n / m) + (n % m + 1) := by rw [← Nat.add_assoc, key]
  constructor
  · rw [hn1, Nat.mul_add_mod, Nat.mod_eq_of_lt h]
  · rw [hn1, Nat.mul_add_div hm, Nat.div_eq_of_lt h, Nat.add_zero]

lemma succ_mod_div_of_eq {n m : ℕ} (hm : 0 < m) (h : n % m + 1 = m) :
    (n + 1) % m = 0 ∧ (n + 1) / m = n / m + 1 := by
  have key := Nat.div_add_mod n m
  have hn1 : n + 1 = m * (n / m + 1) := by
    rw [Nat.mul_succ]
    rw [show m * (n / m) + m = m * (n / m) + (n % m + 1) from by rw [h]]
    rw [← Nat.add_assoc, key]
  constructor
  · rw [hn1, Nat.mul_mod_right]
  · rw [hn1]; exact Nat.mul_div_cancel_left _ hm

lemma place_one_of_stopped (ctx : LoopCtx) (s : BState) (src : SourceDoc) (pno : ℕ)
    (h : s.stopped = true) : place_one ctx s src pno = s := by
  unfold place_one
  rw [h]
  rfl

lemma place_one_no_wrap (ctx : LoopCtx) (s : BState) (src : SourceDoc) (pno : ℕ)
    (h : s.stopped = false) (hlt : s.slot_used + 1 < ctx.total_slots) :
    place_one ctx s src pno =
      { s with
        cur := (s.cur ++ [new_placement ctx s.slot_used s.global_page_index src pno]),
        slot_used := s.slot_used + 1,
        global_page_index := s.global_page_index + 1 } := by
  unfold place_one
  rw [h]
  dsimp only
  rw [if_neg (Bool.false_ne_true), if_neg (not_le.mpr hlt)]

lemma place_one_wrap_none (ctx : LoopCtx) (s : BState) (src : SourceDoc) (pno : ℕ)
    (h : s.stopped = false) (hge : ctx.total_slots ≤ s.slot_used + 1)
    (hstop : ctx.stop_after_pages = none) :
    place_one ctx s src pno =
      { done := (s.done ++ [⟨s.cur ++ [new_placement ctx s.slot_used s.global_page_index src pno], none⟩]),
        cur := [],
        slot_used := 0,
        global_page_index := s.global_page_index + 1,
        stopped := false } := by
  unfold place_one
  rw [h]
  dsimp only
  rw [if_neg (Bool.false_ne_true), if_pos hge, hstop]

lemma place_one_wrap_cont (ctx : LoopCtx) (s : BState) (src : SourceDoc) (pno : ℕ) (k : ℕ)
    (h : s.stopped = false) (hge : ctx.total_slots ≤ s.slot_used + 1)
    (hstop : ctx.stop_after_pages = some k) (hlen : s.done.length + 1 < k) :
    place_one ctx s src pno =
      { done := (s.done ++ [⟨s.cur ++ [new_placement ctx s.slot_used s.global_page_index src pno], none⟩]),
        cur := [],
        slot_used := 0,
        global_page_index := s.global_page_index + 1,
        stopped := false } := by
  unfold place_one
  rw [h]
  dsimp only
  rw [if_neg (Bool.false_ne_true), if_pos hge, hstop]
  dsimp only
  rw [if_neg (by simp only [List.length_append, List.length_singleton]; omega)]

lemma place_one_wrap_hit (ctx : LoopCtx) (s : BState) (src : SourceDoc) (pno : ℕ) (k : ℕ)
    (h : s.stopped = false) (hge : ctx.total_slots ≤ s.slot_used + 1)
    (hstop : ctx.stop_after_pages = some k) (hlen : k ≤ s.done.length + 1) :
    place_one ctx s src pno =
      { done := (stamp_footers ctx.params (s.done.length + 1) 0
          (s.done ++ [⟨s.cur ++ [new_placement ctx s.slot_used s.global_page_index src pno], none⟩])),
        cur := [],
        slot_used := 0,
        global_page_index := s.global_page_index + 1,
        stopped := true } := by
  unfold place_one
  rw [h]
  dsimp only
  rw [if_neg (Bool.false_ne_true), if_pos hge, hstop]
  dsimp only
  rw [if_pos (by simp only [List.length_append, List.length_singleton]; omega)]
  simp only [List.length_append, List.length_singleton]

lemma draw_page_number_footer_placements (P : BuildParams) (t i : ℕ) (pg : OutPage) :
    (draw_page_number_footer P t i pg).placements = pg.placements := by
  unfold draw_page_number_footer
  split <;> rfl

lemma stamp_footers_length (P : BuildParams) (t : ℕ) :
    ∀ (l : List OutPage) (i : ℕ), (stamp_footers P t i l).length = l.length
  | [], _ => rfl
  | pg :: rest, i => by
    simp only [stamp_footers, List.length_cons, stamp_footers_length P t rest (i + 1)]

lemma stamp_footers_placements (P : BuildParams) (t : ℕ) :
    ∀ (l : List OutPage) (i : ℕ),
      ((stamp_footers P t i l).flatMap fun pg => pg.placements) =
        l.flatMap fun pg => pg.placements
  | [], _ => rfl
  | pg :: rest, i => by
    simp only [stamp_footers, List.flatMap_cons, draw_page_number_footer_placements,
      stamp_footers_placements P t rest (i + 1)]

lemma stamp_footers_getD (P : BuildParams) (t : ℕ) :
    ∀ (l : List OutPage) (i j : ℕ), j < l.length →
      (stamp_footers P t i l).getD j default =
        draw_page_number_footer P t (i + j + 1) (l.getD j default)
  | [], _, j, hj => absurd hj (by simp)
  | pg :: rest, i, 0, _ => by simp [stamp_footers]
  | pg :: rest, i, j + 1, hj => by
    have ih := stamp_footers_getD P t rest (i + 1) j (by simpa using hj)
    simp only [stamp_footers, List.getD_cons_succ, ih]
    congr 1
    omega

/-- The invariant of the placement loop after `n` source pages have been
placed and no stop has fired. -/
def LoopInv (ctx : LoopCtx) (n : ℕ) (s : BState) : Prop :=
  s.stopped = false ∧
  s.slot_used = n % ctx.total_slots ∧
  s.global_page_index = n ∧
  s.done.length = n / ctx.total_slots ∧
  s.cur.length = n % ctx.total_slots ∧
  ((s.done.flatMap fun pg => pg.placements).length + s.cur.length = n) ∧
  (∀ pg ∈ s.done, pg.footer = none)

lemma loop_inv_init (ctx : LoopCtx) : LoopInv ctx 0 init_state := by
  refine ⟨rfl, ?_, rfl, ?_, ?_, rfl, ?_⟩ <;> simp [init_state]

lemma place_one_inv (ctx : LoopCtx) (hm : 1 ≤ ctx.total_slots) (n : ℕ) (s : BState)
    (r : SourceDoc × ℕ) (h : LoopInv ctx n s)
    (hcont : ∀ k, ctx.stop_after_pages = some k → (n + 1) / ctx.total_slots < k) :
    LoopInv ctx (n + 1) (place_one ctx s r.1 r.2) ∧
    (place_one ctx s r.1 r.2).all_placements = s.all_placements ++ [mk_placement ctx n r] := by
  obtain ⟨h0, h1, h2, h3, h4, h5, h6⟩ := h
  have hmod : n % ctx.total_slots < ctx.total_slots := Nat.mod_lt n hm
  have hpl : new_placement ctx s.slot_used s.global_page_index r.1 r.2 = mk_placement ctx n r := by
    rw [h1, h2]; rfl
  by_cases hlt : s.slot_used + 1 < ctx.total_slots
  · rw [place_one_no_wrap ctx s r.1 r.2 h0 hlt]
    have hlt' : n % ctx.total_slots + 1 < ctx.total_slots := by rw [← h1]; exact hlt
    obtain ⟨hm1, hd1⟩ := succ_mod_div_of_lt hlt'
    refine ⟨⟨h0, ?_, ?_, ?_, ?_, ?_, ?_⟩, ?_⟩
    · dsimp only
      rw [hm1, h1]
    · dsimp only
      rw [h2]
    · dsimp only
      rw [hd1, h3]
    · dsimp only
      rw [List.length_append, List.length_singleton, hm1, h4]
    · dsimp only
      rw [List.length_append, List.length_singleton]
      omega
    · dsimp only
      exact h6
    · unfold BState.all_placements
      dsimp only
      rw [hpl, List.append_assoc]
  · have hge : ctx.total_slots ≤ s.slot_used + 1 := le_of_not_lt hlt
    have heq : n % ctx.total_slots + 1 = ctx.total_slots := by
      rw [h1] at hge
      omega
    obtain ⟨hm1, hd1⟩ := succ_mod_div_of_eq hm heq
    have hrec : LoopInv ctx (n + 1)
        ({ done := (s.done ++ [⟨s.cur ++ [new_placement ctx s.slot_used s.global_page_index r.1 r.2], none⟩]),
           cur := [],
           slot_used := 0,
           global_page_index := s.global_page_index + 1,
           stopped := false } : BState) ∧
        BState.all_placements
          { done := (s.done ++ [⟨s.cur ++ [new_placement ctx s.slot_used s.global_page_index r.1 r.2], none⟩]),
            cur := [],
            slot_used := 0,
            global_page_index := s.global_page_index + 1,
            stopped := false } = s.all_placements ++ [mk_placement ctx n r] := by
      refine ⟨⟨rfl, ?_, ?_, ?_, ?_, ?_, ?_⟩, ?_⟩
      · dsimp only
        rw [hm1]
      · dsimp only
        rw [h2]
      · dsimp only
        rw [List.length_append, List.length_singleton, hd1, h3]
      · dsimp only
        rw [hm1, List.length_nil]
      · dsimp only
        simp only [List.flatMap_append, List.flatMap_cons, List.flatMap_nil, List.append_nil,
          List.length_append, List.length_singleton, List.length_nil]
        omega
      · dsimp only
        intro pg hpg
        rcases List.mem_append.mp hpg with hpg | hpg
        · exact h6 pg hpg
        · rw [List.mem_singleton.mp hpg]
      · unfold BState.all_placements
        dsimp only
        rw [List.flatMap_append, List.flatMap_cons, List.flatMap_nil, List.append_nil,
          List.append_nil, hpl, List.append_assoc]
    cases hstop : ctx.stop_after_pages with
    | none =>
      rw [place_one_wrap_none ctx s r.1 r.2 h0 hge hstop]
      exact hrec
    | some k =>
      have hk := hcont k hstop
      have hlen : s.done.length + 1 < k := by
        rw [h3, ← hd1]
        exact hk
      rw [place_one_wrap_cont ctx s r.1 r.2 k h0 hge hstop hlen]
      exact hrec

lemma flat_loop_of_stopped (ctx : LoopCtx) :
    ∀ (l : List (SourceDoc × ℕ)) (s : BState), s.stopped = true → flat_loop ctx s l = s
  | [], _, _ => rfl
  | r :: t, s, h => by
    have hstep : flat_loop ctx s (r :: t) = flat_loop ctx (place_one ctx s r.1 r.2) t := rfl
    rw [hstep, place_one_of_stopped ctx s r.1 r.2 h, flat_loop_of_stopped ctx t s h]

lemma flat_loop_inv (ctx : LoopCtx) (hm : 1 ≤ ctx.total_slots) :
    ∀ (l : List (SourceDoc × ℕ)) (n : ℕ) (s : BState), LoopInv ctx n s →
      (∀ k, ctx.stop_after_pages = some k → n + l.length < k * ctx.total_slots) →
      LoopInv ctx (n + l.length) (flat_loop ctx s l) ∧
      (flat_loop ctx s l).all_placements = s.all_placements ++ placements_from ctx n l
  | [], n, s, h, _ => by
    refine ⟨by simpa using h, ?_⟩
    simp [flat_loop, placements_from]
  | r :: t, n, s, h, hbound => by
    have hcont : ∀ k, ctx.stop_after_pages = some k → (n + 1) / ctx.total_slots < k := by
      intro k hk
      have hb := hbound k hk
      rw [Nat.div_lt_iff_lt_mul hm]
      simp only [List.length_cons] at hb
      omega
    obtain ⟨hinv, hall⟩ := place_one_inv ctx hm n s r h hcont
    have hb2 : ∀ k, ctx.stop_after_pages = some k → (n + 1) + t.length < k * ctx.total_slots := by
      intro k hk
      have hb := hbound k hk
      simp only [List.length_cons] at hb
      omega
    obtain ⟨hinv2, hall2⟩ := flat_loop_inv ctx hm t (n + 1) _ hinv hb2
    have hstep : flat_loop ctx s (r :: t) = flat_loop ctx (place_one ctx s r.1 r.2) t := rfl
    constructor
    · have hlen : n + (r :: t).length = (n + 1) + t.length := by
        simp only [List.length_cons]
        omega
      rw [hlen, hstep]
      exact hinv2
    · rw [hstep, hall2, hall]
      show _ = s.all_placements ++ (mk_placement ctx n r :: placements_from ctx (n + 1) t)
      rw [List.append_assoc, List.singleton_append]

lemma flat_loop_stop_hit (ctx : LoopCtx) (k : ℕ) (hstop : ctx.stop_after_pages = some k)
    (hm : 1 ≤ ctx.total_slots) :
    ∀ (l : List (SourceDoc × ℕ)) (n : ℕ) (s : BState), LoopInv ctx n s →
      n < k * ctx.total_slots → k * ctx.total_slots ≤ n + l.length →
      (flat_loop ctx s l).stopped = true ∧
      (flat_loop ctx s l).done.length = k ∧
      ((flat_loop ctx s l).done.flatMap fun pg => pg.placements).length = k * ctx.total_slots ∧
      (∀ j, j < k →
        ((flat_loop ctx s l).done.getD j default).footer =
          if ctx.params.draw_page_numbers then some (footer_text (j + 1) k) else none)
  | [], n, s, _, hlo, hhi => by
    exfalso
    simp only [List.length_nil, Nat.add_zero] at hhi
    omega
  | r :: t, n, s, h, hlo, hhi => by
    have hstep : flat_loop ctx s (r :: t) = flat_loop ctx (place_one ctx s r.1 r.2) t := rfl
    by_cases hn1 : n + 1 < k * ctx.total_slots
    · have hcont : ∀ k', ctx.stop_after_pages = some k' → (n + 1) / ctx.total_slots < k' := by
        intro k' hk'
        rw [hstop] at hk'
        injection hk' with hke
        rw [← hke, Nat.div_lt_iff_lt_mul hm]
        exact hn1
      obtain ⟨hinv, _⟩ := place_one_inv ctx hm n s r h hcont
      have hrest := flat_loop_stop_hit ctx k hstop hm t (n + 1) _ hinv hn1
        (by simp only [List.length_cons] at hhi; omega)
      rw [hstep]
      exact hrest
    · have hne : n + 1 = k * ctx.total_slots := by
        simp only [List.length_cons] at hhi
        omega
      obtain ⟨h0, h1, h2, h3, h4, h5, h6⟩ := h
      have hmod0 : (n + 1) % ctx.total_slots = 0 := by
        rw [hne]
        exact Nat.mul_mod_left k _
      have hmodlt : n % ctx.total_slots < ctx.total_slots := Nat.mod_lt n hm
      have heq : n % ctx.total_slots + 1 = ctx.total_slots := by
        rcases lt_or_eq_of_le (Nat.succ_le_of_lt hmodlt) with hlt2 | he
        · exfalso
          have := (succ_mod_div_of_lt hlt2).1
          omega
        · exact he
      obtain ⟨_, hd1⟩ := succ_mod_div_of_eq hm heq
      have hdivk : (n + 1) / ctx.total_slots = k := by
        rw [hne]
        exact Nat.mul_div_cancel k hm
      have hge : ctx.total_slots ≤ s.slot_used + 1 := by
        rw [h1]
        omega
      have hlenk : s.done.length + 1 = k := by
        rw [h3]
        omega
      have hlen : k ≤ s.done.length + 1 := le_of_eq hlenk.symm
      have hfnone : ∀ pg ∈ (s.done ++
          [(⟨s.cur ++ [new_placement ctx s.slot_used s.global_page_index r.1 r.2], none⟩ : OutPage)]),
          pg.footer = none := by
        intro pg hpg
        rcases List.mem_append.mp hpg with hpg | hpg
        · exact h6 pg hpg
        · rw [List.mem_singleton.mp hpg]
      rw [hstep, place_one_wrap_hit ctx s r.1 r.2 k h0 hge hstop hlen,
        flat_loop_of_stopped ctx t _ rfl]
      refine ⟨rfl, ?_, ?_, ?_⟩
      · dsimp only
        rw [stamp_footers_length, List.length_append, List.length_singleton]
        exact hlenk
      · dsimp only
        rw [stamp_footers_placements]
        simp only [List.flatMap_append, List.flatMap_cons, List.flatMap_nil, List.append_nil,
          List.length_append, List.length_singleton]
        omega
      · intro j hj
        dsimp only
        have hjlt : j < (s.done ++
            [(⟨s.cur ++ [new_placement ctx s.slot_used s.global_page_index r.1 r.2], none⟩ : OutPage)]).length := by
          rw [List.length_append, List.length_singleton]
          omega
        rw [stamp_footers_getD ctx.params (s.done.length + 1) _ 0 j hjlt]
        cases hdp : ctx.params.draw_page_numbers with
        | true =>
          simp only [draw_page_number_footer, hdp, if_true]
          rw [hlenk, Nat.zero_add]
        | false =>
          simp only [draw_page_number_footer, hdp, Bool.false_eq_true, if_false]
          rw [List.getD_eq_getElem _ _ hjlt]
          exact hfnone _ (List.getElem_mem hjlt)

lemma div_ceil_eq (L m : ℕ) (hm : 1 ≤ m) :
    L / m + (if 0 < L % m then 1 else 0) = (L + m - 1) / m := by
  have key := Nat.div_add_mod L m
  have hr : L % m < m := Nat.mod_lt L hm
  rcases Nat.eq_zero_or_pos (L % m) with hz | hpos
  · have hL : L + m - 1 = m * (L / m) + (m - 1) := by omega
    have h1 : (L + m - 1) / m = L / m + (m - 1) / m := by rw [hL, Nat.mul_add_div hm]
    have h2 : (m - 1) / m = 0 := Nat.div_eq_of_lt (by omega)
    rw [if_neg (by omega), h1, h2]
  · have hL : L + m - 1 = m * (L / m) + (L % m - 1 + m) := by omega
    have h1 : (L + m - 1) / m = L / m + (L % m - 1 + m) / m := by rw [hL, Nat.mul_add_div hm]
    have h2 : (L % m - 1 + m) / m = (L % m - 1) / m + 1 := Nat.add_div_right _ hm
    have h3 : (L % m - 1) / m = 0 := Nat.div_eq_of_lt (by omega)
    rw [if_pos hpos, h1, h2, h3, Nat.zero_add]

lemma mk_ctx_total_slots (params : BuildParams) (stop : Option ℕ) :
    (mk_ctx params stop).total_slots =
      (effective_grid params).1 * (effective_grid params).2 := rfl

/-- The data-model invariant of `LayoutParams` (`rows ≥ 1`, `cols ≥ 1`)
carries over to the grid the build actually uses: the chooser only ever
returns a candidate or the fallback `(1,1)`. -/
lemma effective_grid_pos (params : BuildParams)
    (hr : 1 ≤ params.layout.rows) (hc : 1 ≤ params.layout.cols) :
    1 ≤ (effective_grid params).1 * (effective_grid params).2 := by
  unfold effective_grid
  split
  · rcases choose_auto_grid_inv (paper_size_pt params.paper params.landscape) params.layout with
      ⟨he, _⟩ | ⟨hmem, _, _⟩
    · rw [he]
      norm_num
    · exact candidate_slots_pos _ hmem
  · exact Nat.mul_pos hr hc

lemma init_all_placements : init_state.all_placements = [] := rfl

lemma build_eq_assemble_flat (src_files : List (Option SourceDoc)) (params : BuildParams)
    (stop : Option ℕ) :
    build_nup_from_multiple src_files params stop =
      assemble (mk_ctx params stop)
        (flat_loop (mk_ctx params stop) init_state (flatten_srcs src_files)) := by
  unfold build_nup_from_multiple
  dsimp only
  rw [docs_loop_eq_flat]

/-- Closed form of a build without an early-stop bound: the placements, in
document order, are exactly `placements_from` over the flattened source pages,
and the page count is the ceiling `⌈L / slots⌉`. -/
lemma build_no_stop_spec (src_files : List (Option SourceDoc)) (params : BuildParams)
    (hm : 1 ≤ (mk_ctx params none).total_slots) :
    ((build_nup_from_multiple src_files params none).flatMap fun pg => pg.placements) =
      placements_from (mk_ctx params none) 0 (flatten_srcs src_files) ∧
    (build_nup_from_multiple src_files params none).length =
      ((flatten_srcs src_files).length + (mk_ctx params none).total_slots - 1) /
        (mk_ctx params none).total_slots := by
  set ctx := mk_ctx params none with hctx
  have hnb : ∀ k, ctx.stop_after_pages = some k →
      0 + (flatten_srcs src_files).length < k * ctx.total_slots := by
    intro k hk
    exact absurd hk (by rw [hctx]; simp [mk_ctx])
  obtain ⟨hinv, hall⟩ :=
    flat_loop_inv ctx hm (flatten_srcs src_files) 0 init_state (loop_inv_init ctx) hnb
  obtain ⟨h0, h1, h2, h3, h4, h5, h6⟩ := hinv
  rw [init_all_placements, List.nil_append] at hall
  set sf := flat_loop ctx init_state (flatten_srcs src_files) with hsf
  set L := (flatten_srcs src_files).length with hL
  rw [Nat.zero_add] at h1 h3 h4
  have hasm : assemble ctx sf =
      stamp_footers ctx.params
        (sf.done ++ if 0 < sf.slot_used then [({ placements := sf.cur, footer := none } : OutPage)] else []).length 0
        (sf.done ++ if 0 < sf.slot_used then [({ placements := sf.cur, footer := none } : OutPage)] else []) := by
    unfold assemble
    rw [h0]
    rw [if_neg Bool.false_ne_true]
  have hpagesP : ((sf.done ++ if 0 < sf.slot_used then [({ placements := sf.cur, footer := none } : OutPage)] else []).flatMap
      fun pg => pg.placements) = sf.all_placements := by
    unfold BState.all_placements
    by_cases hsl : 0 < sf.slot_used
    · rw [if_pos hsl, List.flatMap_append, List.flatMap_cons, List.flatMap_nil, List.append_nil]
    · have hcur : sf.cur = [] := by
        have : sf.cur.length = 0 := by omega
        exact List.length_eq_zero.mp this
      rw [if_neg hsl, List.flatMap_append, List.flatMap_nil, List.append_nil, hcur,
        List.append_nil]
  have hpagesL : (sf.done ++ if 0 < sf.slot_used then [({ placements := sf.cur, footer := none } : OutPage)] else []).length =
      (L + ctx.total_slots - 1) / ctx.total_slots := by
    rw [List.length_append]
    rw [← div_ceil_eq L ctx.total_slots hm, h3]
    congr 1
    by_cases hsl : 0 < sf.slot_used
    · rw [if_pos hsl, if_pos (by omega), List.length_singleton]
    · rw [if_neg hsl, if_neg (by omega), List.length_nil]
  constructor
  · rw [build_eq_assemble_flat, ← hctx, ← hsf, hasm, stamp_footers_placements, hpagesP, hall]
  · rw [build_eq_assemble_flat, ← hctx, ← hsf, hasm, stamp_footers_length, hpagesL]

lemma placements_from_map_src (ctx : LoopCtx) :
    ∀ (l : List (SourceDoc × ℕ)) (i : ℕ),
      (placements_from ctx i l).map (fun pl => (pl.src, pl.pno)) = l
  | [], _ => rfl
  | r :: t, i => by
    simp only [placements_from, List.map_cons, placements_from_map_src ctx t (i + 1),
      mk_placement, new_placement]

lemma placements_from_getD (ctx : LoopCtx) :
    ∀ (l : List (SourceDoc × ℕ)) (i j : ℕ), j < l.length →
      (placements_from ctx i l).getD j default = mk_placement ctx (i + j) (l.getD j default)
  | [], _, j, hj => absurd hj (by simp)
  | r :: t, i, 0, _ => by simp [placements_from]
  | r :: t, i, j + 1, hj => by
    have ih := placements_from_getD ctx t (i + 1) j (by simpa using hj)
    simp only [placements_from, List.getD_cons_succ, ih]
    rw [show i + 1 + j = i + (j + 1) from by omega]

/-- C3: without an early stop, source pages are placed strictly in input
order — openable documents in list order, each document's pages in native
order (`flatten_srcs`, pure concatenation) — into row-major slots with a
running cursor `i % (rows*cols)` that starts a new output page on overflow,
producing `⌈L / (rows*cols)⌉` output pages.  (`rows, cols ≥ 1` is the
`LayoutParams` data-model invariant.) -/
theorem C3_concatenation_order (src_files : List (Option SourceDoc)) (params : BuildParams)
    (hr : 1 ≤ params.layout.rows) (hc : 1 ≤ params.layout.cols) :
    ((build_nup_from_multiple src_files params none).flatMap fun pg => pg.placements) =
      placements_from (mk_ctx params none) 0 (flatten_srcs src_files) ∧
    (((build_nup_from_multiple src_files params none).flatMap fun pg => pg.placements).map
      (fun pl => (pl.src, pl.pno))) = flatten_srcs src_files ∧
    (∀ j, j < (flatten_srcs src_files).length →
      (((build_nup_from_multiple src_files params none).flatMap fun pg => pg.placements).getD j
        default).slot = j % (mk_ctx params none).total_slots) ∧
    (build_nup_from_multiple src_files params none).length =
      ((flatten_srcs src_files).length + (mk_ctx params none).total_slots - 1) /
        (mk_ctx params none).total_slots := by
  have hm : 1 ≤ (mk_ctx params none).total_slots := by
    rw [mk_ctx_total_slots]
    exact effective_grid_pos params hr hc
  obtain ⟨ha, hlen⟩ := build_no_stop_spec src_files params hm
  refine ⟨ha, ?_, ?_, hlen⟩
  · rw [ha, placements_from_map_src]
  · intro j hj
    rw [ha, placements_from_getD _ _ _ _ hj, Nat.zero_add]
    rfl

def samplePage : SourcePage := ⟨⟨0, 0, 100, 200⟩, none⟩

def sampleDocA : SourceDoc := [samplePage, samplePage, samplePage]

def sampleDocB : SourceDoc := [samplePage, samplePage]

/-- A fixed 2x2 layout with the GUI defaults otherwise. -/
def sampleParams22 : BuildParams :=
  ⟨"A4", false, ⟨2, 2, 10, 4, false, 90⟩, false, 245, true, false, 7, 9⟩

/-- Witness for C3: documents of 3 and 2 pages on a fixed 2x2 grid are placed
as `[D1p1, D1p2, D1p3, D2p1, D2p2]` across `⌈5/4⌉ = 2` output pages. -/
theorem C3_concatenation_order_witness :
    (1 ≤ sampleParams22.layout.rows ∧ 1 ≤ sampleParams22.layout.cols) ∧
    (((build_nup_from_multiple [some sampleDocA, some sampleDocB] sampleParams22 none).flatMap
        fun pg => pg.placements).map (fun pl => (pl.src, pl.pno))) =
      [(sampleDocA, 0), (sampleDocA, 1), (sampleDocA, 2), (sampleDocB, 0), (sampleDocB, 1)] ∧
    (build_nup_from_multiple [some sampleDocA, some sampleDocB] sampleParams22 none).length = 2 := by
  have h := C3_concatenation_order [some sampleDocA, some sampleDocB] sampleParams22
    (by decide) (by decide)
  refine ⟨⟨by decide, by decide⟩, ?_, ?_⟩
  · rw [h.2.1]
    decide
  · rw [h.2.2.2]
    decide

lemma place_one_stop_none_stopped (ctx : LoopCtx) (hstop : ctx.stop_after_pages = none)
    (s : BState) (src : SourceDoc) (pno : ℕ) (h : s.stopped = false) :
    (place_one ctx s src pno).stopped = false := by
  by_cases hw : ctx.total_slots ≤ s.slot_used + 1
  · rw [place_one_wrap_none ctx s src pno h hw hstop]
  · rw [place_one_no_wrap ctx s src pno h (not_le.mp hw)]
    exact h

lemma flat_loop_stop_none_stopped (ctx : LoopCtx) (hstop : ctx.stop_after_pages = none) :
    ∀ (l : List (SourceDoc × ℕ)) (s : BState), s.stopped = false →
      (flat_loop ctx s l).stopped = false
  | [], _, h => h
  | r :: t, s, h =>
    flat_loop_stop_none_stopped ctx hstop t (place_one ctx s r.1 r.2)
      (place_one_stop_none_stopped ctx hstop s r.1 r.2 h)

/-- C4: without an early stop and with `draw_page_numbers` on, the footer of
output page `p` (1-based) is exactly `"p / N"` with `N` the final page count —
stamped by the second pass that runs after all placement is complete, on every
page including a trailing partially-filled one. -/
theorem C4_footer_totals (src_files : List (Option SourceDoc)) (params : BuildParams)
    (hdp : params.draw_page_numbers = true) :
    ∀ i, i < (build_nup_from_multiple src_files params none).length →
      ((build_nup_from_multiple src_files params none).getD i default).footer =
        some (footer_text (i + 1) (build_nup_from_multiple src_files params none).length) := by
  intro i hi
  have hb := build_eq_assemble_flat src_files params none
  set ctx := mk_ctx params none with hctx
  set sf := flat_loop ctx init_state (flatten_srcs src_files) with hsf
  have h0 : sf.stopped = false := flat_loop_stop_none_stopped ctx rfl _ init_state rfl
  have hasm : assemble ctx sf =
      stamp_footers ctx.params
        (sf.done ++ if 0 < sf.slot_used then [({ placements := sf.cur, footer := none } : OutPage)] else []).length 0
        (sf.done ++ if 0 < sf.slot_used then [({ placements := sf.cur, footer := none } : OutPage)] else []) := by
    unfold assemble
    rw [h0]
    rw [if_neg Bool.false_ne_true]
  rw [hb, hasm] at hi ⊢
  set pages := sf.done ++
    (if 0 < sf.slot_used then [({ placements := sf.cur, footer := none } : OutPage)] else [])
    with hpages
  rw [stamp_footers_length] at hi ⊢
  rw [stamp_footers_getD ctx.params pages.length pages 0 i hi]
  have hdp' : ctx.params.draw_page_numbers = true := hdp
  simp only [draw_page_number_footer, hdp', if_true, Nat.zero_add]

/-- A 1x1 layout used to exercise footers and the early-stop bound. -/
def sampleParams11 : BuildParams :=
  ⟨"A4", false, ⟨1, 1, 0, 0, false, 90⟩, false, 245, true, false, 7, 9⟩

lemma sample11_build_length :
    (build_nup_from_multiple [some [samplePage]] sampleParams11 none).length = 1 := by
  have hm : 1 ≤ (mk_ctx sampleParams11 none).total_slots := by decide
  have h := (build_no_stop_spec [some [samplePage]] sampleParams11 hm).2
  rw [h]
  decide

/-- Witness for C4: a one-page build gets the footer `"1 / 1"`. -/
theorem C4_footer_totals_witness :
    sampleParams11.draw_page_numbers = true ∧
    ((build_nup_from_multiple [some [samplePage]] sampleParams11 none).getD 0 default).footer =
      some (footer_text 1 (build_nup_from_multiple [some [samplePage]] sampleParams11 none).length) := by
  refine ⟨rfl, ?_⟩
  have := C4_footer_totals [some [samplePage]] sampleParams11 rfl 0
    (by rw [sample11_build_length]; norm_num)
  simpa using this

/-- C8: an unopenable source path is skipped and the build is identical to the
build with that path removed — same placements, page count and cell
indices. -/
theorem C8_skip_unopenable (xs ys : List (Option SourceDoc)) (params : BuildParams)
    (stop : Option ℕ) :
    build_nup_from_multiple (xs ++ none :: ys) params stop =
      build_nup_from_multiple (xs ++ ys) params stop := by
  unfold build_nup_from_multiple
  dsimp only
  rw [docs_loop_eq_flat, docs_loop_eq_flat]
  have hflat : flatten_srcs (xs ++ none :: ys) = flatten_srcs (xs ++ ys) := by
    unfold flatten_srcs
    rw [List.flatMap_append, List.flatMap_append, List.flatMap_cons]
    rfl
  rw [hflat]

lemma flatten_srcs_nil_of (src_files : List (Option SourceDoc))
    (h : ∀ d ∈ src_files, d = none ∨ d = some ([] : SourceDoc)) :
    flatten_srcs src_files = [] := by
  induction src_files with
  | nil => rfl
  | cons d t ih =>
    unfold flatten_srcs
    rw [List.flatMap_cons]
    have ht : t.flatMap _ = flatten_srcs t := rfl
    rcases h d (List.mem_cons_self d t) with hd | hd <;> rw [hd] <;>
      simp only [List.length_nil, List.range_zero, List.map_nil, List.nil_append] <;>
      exact ih fun x hx => h x (List.mem_cons_of_mem _ hx)

/-- C9: a build whose source list is empty, or contains only unopenable paths
and zero-page documents, returns a well-formed empty output document (zero
pages) rather than raising. -/
theorem C9_empty_input (params : BuildParams) (stop : Option ℕ)
    (src_files : List (Option SourceDoc))
    (h : ∀ d ∈ src_files, d = none ∨ d = some ([] : SourceDoc)) :
    build_nup_from_multiple src_files params stop = [] := by
  have hb := build_eq_assemble_flat src_files params stop
  rw [hb, flatten_srcs_nil_of src_files h]
  rfl

/-- Witness for C9: the empty source list and a list of one unopenable path
plus one zero-page document both build to zero pages. -/
theorem C9_empty_input_witness :
    (∀ d ∈ ([none, some []] : List (Option SourceDoc)), d = none ∨ d = some ([] : SourceDoc)) ∧
    build_nup_from_multiple [none, some []] sampleParams22 none = [] ∧
    build_nup_from_multiple [] sampleParams22 none = [] :=
  ⟨by decide,
    C9_empty_input sampleParams22 none [none, some []] (by decide),
    C9_empty_input sampleParams22 none [] (by simp)⟩

lemma sample11_two_pages_length :
    (build_nup_from_multiple [some [samplePage, samplePage]] sampleParams11 none).length = 2 := by
  have hm : 1 ≤ (mk_ctx sampleParams11 none).total_slots := by decide
  rw [(build_no_stop_spec [some [samplePage, samplePage]] sampleParams11 hm).2]
  decide

/-- C5 counterexample at `stop_after_pages = 0`: two one-slot input pages
would produce 2 > 0 output pages, yet the truncated build still produces one
page (the bound is only checked after a page completes), and its footer
denominator is 1, not the bound 0. -/
theorem C5_zero_bound_counterexample :
    1 < (build_nup_from_multiple [some [samplePage, samplePage]] sampleParams11 none).length ∧
    (build_nup_from_multiple [some [samplePage, samplePage]] sampleParams11 (some 0)).length = 1 ∧
    ((build_nup_from_multiple [some [samplePage, samplePage]] sampleParams11
        (some 0)).getD 0 default).footer = some (footer_text 1 1) := by
  refine ⟨?_, ?_, ?_⟩
  · rw [sample11_two_pages_length]
    norm_num
  · decide
  · decide

/-- C5 (amended to bounds `k ≥ 1`): when an early-stop bound `k ≥ 1` is given
and the full build would produce more than `k` output pages, the truncated
build has exactly `k` pages, places exactly `k * slots` input pages (pages
beyond that are not placed), and stamps footers with the truncated count `k`
as denominator. -/
theorem C5_early_stop_truncates (src_files : List (Option SourceDoc)) (params : BuildParams)
    (k : ℕ) (hr : 1 ≤ params.layout.rows) (hc : 1 ≤ params.layout.cols) (hk : 1 ≤ k)
    (hmore : k < (build_nup_from_multiple src_files params none).length) :
    (build_nup_from_multiple src_files params (some k)).length = k ∧
    ((build_nup_from_multiple src_files params (some k)).flatMap fun pg => pg.placements).length =
      k * (mk_ctx params (some k)).total_slots ∧
    ((build_nup_from_multiple src_files params (some k)).flatMap fun pg => pg.placements).length <
      (flatten_srcs src_files).length ∧
    (∀ j, j < k →
      ((build_nup_from_multiple src_files params (some k)).getD j default).footer =
        if params.draw_page_numbers then some (footer_text (j + 1) k) else none) := by
  have hm : 1 ≤ (mk_ctx params (some k)).total_slots := by
    rw [mk_ctx_total_slots]
    exact effective_grid_pos params hr hc
  have hmnone : 1 ≤ (mk_ctx params none).total_slots := hm
  have hkm : k * (mk_ctx params (some k)).total_slots < (flatten_srcs src_files).length := by
    rw [(build_no_stop_spec src_files params hmnone).2] at hmore
    rw [show k < ((flatten_srcs src_files).length + (mk_ctx params none).total_slots - 1) /
        (mk_ctx params none).total_slots ↔ k + 1 ≤ _ from Iff.rfl,
      Nat.le_div_iff_mul_le hmnone, Nat.succ_mul] at hmore
    have he : (mk_ctx params none).total_slots = (mk_ctx params (some k)).total_slots := rfl
    rw [he] at hmore
    omega
  have hit := flat_loop_stop_hit (mk_ctx params (some k)) k rfl hm (flatten_srcs src_files) 0
    init_state (loop_inv_init _) (Nat.mul_pos hk hm) (by omega)
  obtain ⟨hstopd, hlen, hcount, hfoot⟩ := hit
  have hasm : build_nup_from_multiple src_files params (some k) =
      (flat_loop (mk_ctx params (some k)) init_state (flatten_srcs src_files)).done := by
    rw [build_eq_assemble_flat]
    unfold assemble
    rw [hstopd]
    rfl
  refine ⟨?_, ?_, ?_, ?_⟩
  · rw [hasm]
    exact hlen
  · rw [hasm]
    exact hcount
  · rw [hasm, hcount]
    exact hkm
  · intro j hj
    rw [hasm]
    exact hfoot j hj

/-- Witness for C5 at `k = 1`: two one-slot pages, bound 1 — one output page,
one placement, footer `"1 / 1"`. -/
theorem C5_early_stop_truncates_witness :
    (1 ≤ sampleParams11.layout.rows ∧ 1 ≤ sampleParams11.layout.cols ∧ (1 : ℕ) ≤ 1 ∧
      1 < (build_nup_from_multiple [some [samplePage, samplePage]] sampleParams11 none).length) ∧
    (build_nup_from_multiple [some [samplePage, samplePage]] sampleParams11 (some 1)).length = 1 ∧
    ((build_nup_from_multiple [some [samplePage, samplePage]] sampleParams11
        (some 1)).getD 0 default).footer =
      if sampleParams11.draw_page_numbers then some (footer_text 1 1) else none := by
  have hmore : 1 < (build_nup_from_multiple [some [samplePage, samplePage]]
      sampleParams11 none).length := by
    rw [sample11_two_pages_length]
    norm_num
  have h := C5_early_stop_truncates [some [samplePage, samplePage]] sampleParams11 1
    (by decide) (by decide) le_rfl hmore
  exact ⟨⟨by decide, by decide, le_rfl, hmore⟩, h.1, h.2.2.2 0 (by norm_num)⟩

/-! ## Threshold zero (C10) -/

lemma nonwhite_bbox_pixmap_zero (pix : Pixmap) : nonwhite_bbox_pixmap pix 0 = none :=
  nonwhite_bbox_pixmap_blank pix 0 (fun _ _ _ _ => Nat.zero_le _)

lemma estimate_content_clip_zero (sp : SourcePage) : estimate_content_clip sp 0 = sp.rect := by
  unfold estimate_content_clip
  cases sp.pix with
  | none => rfl
  | some pix =>
    dsimp only
    rw [nonwhite_bbox_pixmap_zero pix]

/-- `place_one` on a live state appends exactly the placement built by
`new_placement`, whatever branch is taken (the stop branch stamps footers,
which does not change placements). -/
lemma place_one_all_placements (ctx : LoopCtx) (s : BState) (src : SourceDoc) (pno : ℕ)
    (h0 : s.stopped = false) :
    (place_one ctx s src pno).all_placements =
      s.all_placements ++ [new_placement ctx s.slot_used s.global_page_index src pno] := by
  unfold BState.all_placements
  by_cases hw : ctx.total_slots ≤ s.slot_used + 1
  · cases hstop : ctx.stop_after_pages with
    | none =>
      rw [place_one_wrap_none ctx s src pno h0 hw hstop]
      dsimp only
      rw [List.flatMap_append, List.flatMap_cons, List.flatMap_nil, List.append_nil,
        List.append_nil, List.append_assoc]
    | some k =>
      by_cases hl : k ≤ s.done.length + 1
      · rw [place_one_wrap_hit ctx s src pno k h0 hw hstop hl]
        dsimp only
        rw [stamp_footers_placements, List.flatMap_append, List.flatMap_cons, List.flatMap_nil,
          List.append_nil, List.append_nil, List.append_assoc]
      · rw [place_one_wrap_cont ctx s src pno k h0 hw hstop (by omega)]
        dsimp only
        rw [List.flatMap_append, List.flatMap_cons, List.flatMap_nil, List.append_nil,
          List.append_nil, List.append_assoc]
  · rw [place_one_no_wrap ctx s src pno h0 (not_le.mp hw)]
    dsimp only
    rw [List.append_assoc]

lemma flat_loop_all_pred (ctx : LoopCtx) (R : Placement → Prop)
    (hnew : ∀ slot gpi src pno, R (new_placement ctx slot gpi src pno)) :
    ∀ (l : List (SourceDoc × ℕ)) (s : BState),
      (∀ pl ∈ s.all_placements, R pl) →
      ∀ pl ∈ (flat_loop ctx s l).all_placements, R pl
  | [], _, h => h
  | r :: t, s, h => by
    have hstep : flat_loop ctx s (r :: t) = flat_loop ctx (place_one ctx s r.1 r.2) t := rfl
    rw [hstep]
    refine flat_loop_all_pred ctx R hnew t _ ?_
    cases h0 : s.stopped with
    | true =>
      rw [place_one_of_stopped ctx s r.1 r.2 h0]
      exact h
    | false =>
      rw [place_one_all_placements ctx s r.1 r.2 h0]
      intro pl hpl
      rcases List.mem_append.mp hpl with hpl | hpl
      · exact h pl hpl
      · rw [List.mem_singleton.mp hpl]
        exact hnew _ _ _ _

lemma build_placements_mem (src_files : List (Option SourceDoc)) (params : BuildParams)
    (stop : Option ℕ) :
    ∀ pl ∈ ((build_nup_from_multiple src_files params stop).flatMap fun pg => pg.placements),
      pl ∈ (flat_loop (mk_ctx params stop) init_state (flatten_srcs src_files)).all_placements := by
  rw [build_eq_assemble_flat]
  set sf := flat_loop (mk_ctx params stop) init_state (flatten_srcs src_files) with hsf
  unfold assemble BState.all_placements
  cases h0 : sf.stopped with
  | true =>
    rw [if_pos rfl]
    intro pl hpl
    exact List.mem_append_left _ hpl
  | false =>
    rw [if_neg Bool.false_ne_true]
    dsimp only
    rw [stamp_footers_placements, List.flatMap_append]
    intro pl hpl
    rcases List.mem_append.mp hpl with hpl | hpl
    · exact List.mem_append_left _ hpl
    · refine List.mem_append_right _ ?_
      by_cases hsl : 0 < sf.slot_used
      · rw [if_pos hsl, List.flatMap_cons, List.flatMap_nil, List.append_nil] at hpl
        exact hpl
      · rw [if_neg hsl] at hpl
        exact absurd hpl (by simp)

/-- C10: with trim threshold 0 trimming is a no-op — no byte is below 0, so
`nonwhite_bbox_pixmap` finds no bounding box, `estimate_content_clip` returns
the full page rectangle, and a build with `trim_whitespace` enabled and
threshold 0 places every page with its full native rectangle as clip. -/
theorem C10_zero_threshold_no_trim (params : BuildParams)
    (htrim : params.trim_whitespace = true) (hthr : params.trim_threshold = 0) :
    (∀ pix : Pixmap, nonwhite_bbox_pixmap pix 0 = none) ∧
    (∀ sp : SourcePage, estimate_content_clip sp 0 = sp.rect) ∧
    (∀ (src_files : List (Option SourceDoc)) (stop : Option ℕ),
      ∀ pl ∈ ((build_nup_from_multiple src_files params stop).flatMap fun pg => pg.placements),
        pl.clip = (pl.src.getD pl.pno default).rect) := by
  refine ⟨nonwhite_bbox_pixmap_zero, estimate_content_clip_zero, ?_⟩
  intro src_files stop
  have hnew : ∀ (slot gpi : ℕ) (src : SourceDoc) (pno : ℕ),
      (new_placement (mk_ctx params stop) slot gpi src pno).clip =
        ((new_placement (mk_ctx params stop) slot gpi src pno).src.getD
          (new_placement (mk_ctx params stop) slot gpi src pno).pno default).rect := by
    intro slot gpi src pno
    unfold new_placement
    dsimp only
    rw [show (mk_ctx params stop).params.trim_whitespace = true from htrim, if_pos rfl,
      show (mk_ctx params stop).params.trim_threshold = 0 from hthr,
      estimate_content_clip_zero]
  intro pl hpl
  exact flat_loop_all_pred (mk_ctx params stop)
    (fun pl => pl.clip = (pl.src.getD pl.pno default).rect) hnew (flatten_srcs src_files)
    init_state (by simp [init_all_placements]) pl
    (build_placements_mem src_files params stop pl hpl)

def sampleTrimParams : BuildParams :=
  ⟨"A4", false, ⟨1, 1, 0, 0, false, 90⟩, true, 0, true, false, 7, 9⟩

/-- Witness for C10 on a concrete all-white 1x1 pixmap and a concrete page. -/
theorem C10_zero_threshold_no_trim_witness :
    sampleTrimParams.trim_whitespace = true ∧ sampleTrimParams.trim_threshold = 0 ∧
    nonwhite_bbox_pixmap ⟨1, 1, 3, [255, 255, 255]⟩ 0 = none ∧
    estimate_content_clip samplePage 0 = samplePage.rect :=
  ⟨rfl, rfl, (C10_zero_threshold_no_trim sampleTrimParams rfl rfl).1 ⟨1, 1, 3, [255, 255, 255]⟩,
    (C10_zero_threshold_no_trim sampleTrimParams rfl rfl).2.1 samplePage⟩

end MochiMaker
